import Mathlib

set_option maxHeartbeats 1000000

/- Shallow embedding of the position/P&L aggregation engine of the
   stock-trading journal (src/helpers.ts: calculatePositions, getMonthlyStats;
   src/Bitcoin.tsx Dashboard: getTradeComputed, getDaySummary, avgReturnPct).

   Modelling conventions:
   - JS numbers are modelled as rationals; floating-point rounding is not
     modelled (the claims are about exact arithmetic relationships).
   - An ISO date string "YYYY-MM-DD" is modelled as the natural number
     YYYYMMDD: lexicographic comparison of such strings coincides with
     numeric comparison, and the month prefix "YYYY-MM" (date.slice(0, 7))
     corresponds to division by 100.
   - A JS Map is modelled as an insertion-ordered association list; Map.get
     is mapLookup, Map.set is mapUpdate (replace in place or append).
   - Array.prototype.sort with comparator (a, b) => a.date.localeCompare(b.date)
     is a stable sort by date; it is modelled by insertion sort with the
     non-strict date order, which is stable.
   - The Trade record carries the fields of both entry modes: the plain
     buy/sell model of types.ts and the roundtrip model used by the
     Dashboard (buyPrice / sellPrice / realizedPnl are optional there,
     accessed with ?? 0 / || 0 fallbacks). -/

inductive TType where
  | buy
  | sell
  | roundtrip
deriving DecidableEq, Repr

structure Trade where
  date : Nat
  stockName : String
  stockCode : String
  type : TType
  quantity : ℚ
  price : ℚ
  buyPrice : Option ℚ := none
  sellPrice : Option ℚ := none
  realizedPnl : Option ℚ := none
deriving DecidableEq, Repr

/-- Grouping key: `trade.stockCode || trade.stockName` (empty string is falsy). -/
def stockKey (t : Trade) : String :=
  if t.stockCode = "" then t.stockName else t.stockCode

/-- Month bucket: `trade.date.slice(0, 7)`, i.e. YYYYMM of the YYYYMMDD code. -/
def monthOf (t : Trade) : Nat := t.date / 100

def dateLe (a b : Trade) : Prop := a.date ≤ b.date

instance : DecidableRel dateLe := fun a b => Nat.decLe a.date b.date

instance : IsTotal Trade dateLe := ⟨fun a b => Nat.le_total a.date b.date⟩

instance : IsTrans Trade dateLe := ⟨fun _ _ _ h h2 => Nat.le_trans h h2⟩

/-- The strict date order, used for uniqueness of sorted lists. -/
def dateLt (a b : Trade) : Prop := a.date < b.date

instance : DecidableRel dateLt := fun a b => Nat.decLt a.date b.date

instance : IsAntisymm Trade dateLt :=
  ⟨fun a b h h2 => absurd h2 (Nat.lt_asymm h)⟩

/-- `[...trades].sort((a, b) => a.date.localeCompare(b.date))`: stable sort
by ascending date. -/
def sortByDate (ts : List Trade) : List Trade := List.insertionSort dateLe ts

/-- Map.get on an insertion-ordered association list. -/
def mapLookup {κ σ : Type} [DecidableEq κ] (k : κ) : List (κ × σ) → Option σ
  | [] => none
  | (k2, v) :: rest => if k2 = k then some v else mapLookup k rest

/-- Map.set on an insertion-ordered association list: replace in place if the
key is present, otherwise append. -/
def mapUpdate {κ σ : Type} [DecidableEq κ] (k : κ) (v : σ) :
    List (κ × σ) → List (κ × σ)
  | [] => [(k, v)]
  | (k2, v2) :: rest =>
    if k2 = k then (k, v) :: rest else (k2, v2) :: mapUpdate k v rest

structure StockPosition where
  stockName : String
  stockCode : String
  buyQuantity : ℚ
  sellQuantity : ℚ
  holdingQuantity : ℚ
  avgBuyPrice : ℚ
  totalBuyCost : ℚ
  totalSellRevenue : ℚ
  realizedPnL : ℚ
deriving DecidableEq, Repr

/-- The zeroed position created when a stock key is first seen. -/
def initPos (t : Trade) : StockPosition :=
  { stockName := t.stockName
    stockCode := t.stockCode
    buyQuantity := 0
    sellQuantity := 0
    holdingQuantity := 0
    avgBuyPrice := 0
    totalBuyCost := 0
    totalSellRevenue := 0
    realizedPnL := 0 }

/-- The body of calculatePositions' fold: the buy branch grows the cost pool
and recomputes the average; every other record type takes the sell branch,
reading the current average; afterwards holdingQuantity is refreshed. -/
def applyTrade (pos : StockPosition) (t : Trade) : StockPosition :=
  let pos1 :=
    if t.type = TType.buy then
      let cost := t.price * t.quantity
      let totalBuyCost := pos.totalBuyCost + cost
      let buyQuantity := pos.buyQuantity + t.quantity
      { pos with
        totalBuyCost := totalBuyCost
        buyQuantity := buyQuantity
        avgBuyPrice := if 0 < buyQuantity then totalBuyCost / buyQuantity else 0 }
    else
      let revenue := t.price * t.quantity
      let costBasis := pos.avgBuyPrice * t.quantity
      { pos with
        totalSellRevenue := pos.totalSellRevenue + revenue
        sellQuantity := pos.sellQuantity + t.quantity
        realizedPnL := pos.realizedPnL + (revenue - costBasis) }
  { pos1 with holdingQuantity := pos1.buyQuantity - pos1.sellQuantity }

def calcStep (m : List (String × StockPosition)) (t : Trade) :
    List (String × StockPosition) :=
  let k := stockKey t
  mapUpdate k (applyTrade ((mapLookup k m).getD (initPos t)) t) m

/-- calculatePositions (src/helpers.ts, lines 24-64), keyed output of the
position map. -/
def calculatePositions (ts : List Trade) : List (String × StockPosition) :=
  (sortByDate ts).foldl calcStep []

structure AvgAcc where
  totalCost : ℚ
  totalQty : ℚ
deriving DecidableEq, Repr

/-- First pass of getMonthlyStats: on each buy, accumulate cost and quantity
per key into avgPrices and overwrite positions with the current ratio; all
other records leave both maps untouched. -/
def avgStep (s : List (String × AvgAcc) × List (String × ℚ)) (t : Trade) :
    List (String × AvgAcc) × List (String × ℚ) :=
  if t.type = TType.buy then
    let k := stockKey t
    let e := (mapLookup k s.1).getD ⟨0, 0⟩
    let e2 : AvgAcc := ⟨e.totalCost + t.price * t.quantity, e.totalQty + t.quantity⟩
    (mapUpdate k e2 s.1, mapUpdate k (e2.totalCost / e2.totalQty) s.2)
  else s

/-- The positions map after the first pass of getMonthlyStats. -/
def monthAvgPositions (ts : List Trade) : List (String × ℚ) :=
  ((sortByDate ts).foldl avgStep ([], [])).2

/-- `positions.get(key) || trade.price`: a missing entry and an entry equal
to 0 (falsy) both fall back to the sell's own price. -/
def lookupAvg (pm : List (String × ℚ)) (t : Trade) : ℚ :=
  match mapLookup (stockKey t) pm with
  | none => t.price
  | some v => if v = 0 then t.price else v

structure MonthEntry where
  buyAmount : ℚ
  sellAmount : ℚ
  pnl : ℚ
  count : Nat
deriving DecidableEq, Repr

def zeroEntry : MonthEntry := ⟨0, 0, 0, 0⟩

/-- Second pass of getMonthlyStats, per-record update of a month bucket. -/
def entryUpd (pm : List (String × ℚ)) (e : MonthEntry) (t : Trade) : MonthEntry :=
  let amount := t.price * t.quantity
  if t.type = TType.buy then
    { e with buyAmount := e.buyAmount + amount, count := e.count + 1 }
  else
    { e with
      sellAmount := e.sellAmount + amount
      pnl := e.pnl + (t.price - lookupAvg pm t) * t.quantity
      count := e.count + 1 }

def monthStep (pm : List (String × ℚ)) (m : List (Nat × MonthEntry)) (t : Trade) :
    List (Nat × MonthEntry) :=
  let mo := monthOf t
  mapUpdate mo (entryUpd pm ((mapLookup mo m).getD zeroEntry) t) m

structure MonthlyStat where
  month : Nat
  buyAmount : ℚ
  sellAmount : ℚ
  pnl : ℚ
  count : Nat
deriving DecidableEq, Repr

def statLe (a b : MonthlyStat) : Prop := a.month ≤ b.month

instance : DecidableRel statLe := fun a b => Nat.decLe a.month b.month

instance : IsTotal MonthlyStat statLe := ⟨fun a b => Nat.le_total a.month b.month⟩

instance : IsTrans MonthlyStat statLe := ⟨fun _ _ _ h h2 => Nat.le_trans h h2⟩

/-- The record shape returned for one month bucket. -/
def toStat (p : Nat × MonthEntry) : MonthlyStat :=
  ⟨p.1, p.2.buyAmount, p.2.sellAmount, p.2.pnl, p.2.count⟩

/-- getMonthlyStats (src/helpers.ts, lines 66-106): first pass builds the
per-stock average prices over the full sorted history, second pass buckets
by month, then the buckets are sorted ascending by month key and
`.slice(-12)` keeps the last twelve. -/
def getMonthlyStats (ts : List Trade) : List MonthlyStat :=
  let sorted := sortByDate ts
  let pm := (sorted.foldl avgStep ([], [])).2
  let entries := sorted.foldl (monthStep pm) []
  let stats := entries.map toStat
  let sortedStats := List.insertionSort statLe stats
  sortedStats.drop (sortedStats.length - 12)

structure TradeComputed where
  buyAmount : ℚ
  sellAmount : ℚ
  pnl : ℚ
  returnPct : ℚ
deriving DecidableEq, Repr

/-- getTradeComputed (src/Bitcoin.tsx Dashboard): per-record amounts and
guarded return percentage.  `trade.quantity || 0` and `trade.price ?? 0` are
identities on the modelled (always-present, numeric) fields; the optional
roundtrip fields use their `?? 0` fallbacks. -/
def getTradeComputed (t : Trade) : TradeComputed :=
  let qty := t.quantity
  let buyAmount : ℚ :=
    match t.type with
    | TType.roundtrip => t.buyPrice.getD 0 * qty
    | TType.buy => t.price * qty
    | TType.sell => 0
  let sellAmount : ℚ :=
    match t.type with
    | TType.roundtrip => t.sellPrice.getD 0 * qty
    | TType.sell => t.price * qty
    | TType.buy => 0
  let pnl := t.realizedPnl.getD 0
  let returnPct := if 0 < buyAmount then pnl / buyAmount * 100 else 0
  ⟨buyAmount, sellAmount, pnl, returnPct⟩

structure DaySummary where
  totalBuy : ℚ
  totalSell : ℚ
  totalPnl : ℚ
  avgReturn : ℚ
deriving DecidableEq, Repr

/-- One loop iteration of getDaySummary: accumulate the three totals and
push returnPct when the record has positive buyAmount. -/
def dayStep (acc : ℚ × ℚ × ℚ × List ℚ) (t : Trade) : ℚ × ℚ × ℚ × List ℚ :=
  let c := getTradeComputed t
  (acc.1 + c.buyAmount, acc.2.1 + c.sellAmount, acc.2.2.1 + c.pnl,
    if 0 < c.buyAmount then acc.2.2.2 ++ [c.returnPct] else acc.2.2.2)

/-- getDaySummary (src/Bitcoin.tsx Dashboard): totals plus the mean of
returnPct over the records pushed to `returns` (those with buyAmount > 0). -/
def getDaySummary (ts : List Trade) : DaySummary :=
  let r := ts.foldl dayStep (0, 0, 0, [])
  let returns := r.2.2.2
  ⟨r.1, r.2.1, r.2.2.1,
    if returns = [] then 0 else returns.sum / (returns.length : ℚ)⟩

/-- avgReturnPct (src/Bitcoin.tsx Dashboard): per-record return from the
roundtrip fields, keeping only records with positive invested amount; the
`Number.isFinite` filter is an identity over the rationals. -/
def avgReturnPct (ts : List Trade) : ℚ :=
  let rets := ts.filterMap fun t =>
    let invested := t.buyPrice.getD 0 * t.quantity
    if 0 < invested then some (t.realizedPnl.getD 0 / invested * 100) else none
  if rets = [] then 0 else rets.sum / (rets.length : ℚ)

/- ----- definitions used only to state the claims ----- -/

/-- Spec wording of the monthly pnl (claim C1): fold the sorted full history
through the Position Aggregator's state, and for each sell of the given
month add `(price - avgBuyPrice at that moment) * quantity`. -/
def runningStep (mo : Nat)
    (s : List (String × StockPosition) × ℚ) (t : Trade) :
    List (String × StockPosition) × ℚ :=
  let k := stockKey t
  let pos := (mapLookup k s.1).getD (initPos t)
  let acc :=
    if t.type ≠ TType.buy ∧ monthOf t = mo then
      s.2 + (t.price - pos.avgBuyPrice) * t.quantity
    else s.2
  (mapUpdate k (applyTrade pos t) s.1, acc)

/-- Spec wording of the monthly pnl of month `mo` (claim C1 as stated). -/
def monthlyPnlRunningSpec (ts : List Trade) (mo : Nat) : ℚ :=
  ((sortByDate ts).foldl (runningStep mo) ([], 0)).2

/-- The average price the code actually uses for a sell: the final full
history average buy price of the stock (total buy cost over total buy
quantity across all buys of the key, anywhere in the collection), falling
back to the sell's own price when the key has no buys or the ratio is 0. -/
def finalAvgSpec (ts : List Trade) (t : Trade) : ℚ :=
  let bs := ts.filter fun u => u.type = TType.buy ∧ stockKey u = stockKey t
  if bs = [] then t.price
  else
    let c := (bs.map fun u => u.price * u.quantity).sum
    let q := (bs.map fun u => u.quantity).sum
    if c / q = 0 then t.price else c / q

/-- Sum of `price * quantity` over a list of records. -/
def amountSum (l : List Trade) : ℚ := (l.map fun t => t.price * t.quantity).sum

/-- Sells (every non-buy record) of a given month, in a given list. -/
def monthSells (l : List Trade) (mo : Nat) : List Trade :=
  (l.filter fun t => monthOf t = mo).filter fun t => ¬ t.type = TType.buy

/-- Records with buyAmount > 0, the ones eligible for the day-summary mean. -/
def eligibleFor (ts : List Trade) : List Trade :=
  ts.filter fun t => 0 < (getTradeComputed t).buyAmount

/-- Spec wording of the aggregate day return (claim C7): arithmetic mean of
returnPct over the records with positive buyAmount, 0 when none qualify. -/
def meanReturnSpec (ts : List Trade) : ℚ :=
  let l := eligibleFor ts
  if l = [] then 0
  else ((l.map fun t => (getTradeComputed t).returnPct).sum) / (l.length : ℚ)

/-- Retyping that turns every roundtrip record into a sell (claim C9). -/
def roundtripAsSell (t : Trade) : Trade :=
  if t.type = TType.roundtrip then { t with type := TType.sell } else t

/-- One step of the per-key view of calculatePositions' fold: only records
of the given key act on the optional position. -/
def optPosStep (k : String) (o : Option StockPosition) (t : Trade) :
    Option StockPosition :=
  if stockKey t = k then some (applyTrade (o.getD (initPos t)) t) else o

/-- The position produced by folding applyTrade over the records of one key,
none when the key never occurs. -/
def posFromList : List Trade → Option StockPosition
  | [] => none
  | t :: r => some (r.foldl applyTrade (applyTrade (initPos t) t))

/-- The avgPrices accumulator update applied on each buy. -/
def accUpd (a : AvgAcc) (t : Trade) : AvgAcc :=
  ⟨a.totalCost + t.price * t.quantity, a.totalQty + t.quantity⟩

/-- totalCost / totalQty, the value written into the positions map. -/
def avgOf (a : AvgAcc) : ℚ := a.totalCost / a.totalQty

/-- The positions-map entry produced by a key's buy records: none when the
key has no buys, otherwise the ratio of its accumulated cost and quantity. -/
def ratioOfBuys : List Trade → Option ℚ
  | [] => none
  | b :: r => some (avgOf ((b :: r).foldl accUpd ⟨0, 0⟩))

/-- One step of the per-key view of the first pass of getMonthlyStats. -/
def accPairStep (s : Option AvgAcc × Option ℚ) (t : Trade) :
    Option AvgAcc × Option ℚ :=
  let a := accUpd (s.1.getD ⟨0, 0⟩) t
  (some a, some (avgOf a))

/-- One step of the per-month view of the second pass of getMonthlyStats. -/
def optEntryStep (pm : List (String × ℚ)) (mo : Nat) (o : Option MonthEntry)
    (t : Trade) : Option MonthEntry :=
  if monthOf t = mo then some (entryUpd pm (o.getD zeroEntry) t) else o

/-- The month bucket built from the records of one month, none when the
month never occurs. -/
def entryFromList (pm : List (String × ℚ)) : List Trade → Option MonthEntry
  | [] => none
  | t :: r => some ((t :: r).foldl (entryUpd pm) zeroEntry)

/-- The keys of an association list, in insertion order. -/
def keysOf {κ σ : Type} (m : List (κ × σ)) : List κ := m.map Prod.fst

/- ----- concrete inputs used by counterexamples and witnesses ----- -/

/-- C1 counterexample input: buy 1@10, sell 1@10, later buy 1@30, one stock,
one month.  The running average at the sell is 10, the full-history final
average is 20. -/
def exC1 : List Trade :=
  [ { date := 20240101, stockName := "A", stockCode := "", type := TType.buy,
      quantity := 1, price := 10 },
    { date := 20240102, stockName := "A", stockCode := "", type := TType.sell,
      quantity := 1, price := 10 },
    { date := 20240103, stockName := "A", stockCode := "", type := TType.buy,
      quantity := 1, price := 30 } ]

/-- C1 witness input: buy 2@10 in one month, sell 1@20 the next. -/
def exC1w : List Trade :=
  [ { date := 20240101, stockName := "A", stockCode := "", type := TType.buy,
      quantity := 2, price := 10 },
    { date := 20240201, stockName := "A", stockCode := "", type := TType.sell,
      quantity := 1, price := 20 } ]

/-- C2 counterexample inputs: the same two same-date trades of one stock in
the two input orders.  The stable sort preserves the input order, so the
sell is costed against average 10 in one order and against average 0 in the
other. -/
def exC2a : List Trade :=
  [ { date := 20240105, stockName := "A", stockCode := "", type := TType.buy,
      quantity := 1, price := 10 },
    { date := 20240105, stockName := "A", stockCode := "", type := TType.sell,
      quantity := 1, price := 20 } ]

def exC2b : List Trade :=
  [ { date := 20240105, stockName := "A", stockCode := "", type := TType.sell,
      quantity := 1, price := 20 },
    { date := 20240105, stockName := "A", stockCode := "", type := TType.buy,
      quantity := 1, price := 10 } ]

/-- C2 witness inputs: the same trades with distinct dates, permuted. -/
def exC2c : List Trade :=
  [ { date := 20240105, stockName := "A", stockCode := "", type := TType.buy,
      quantity := 1, price := 10 },
    { date := 20240106, stockName := "A", stockCode := "", type := TType.sell,
      quantity := 1, price := 20 } ]

def exC2d : List Trade :=
  [ { date := 20240106, stockName := "A", stockCode := "", type := TType.sell,
      quantity := 1, price := 20 },
    { date := 20240105, stockName := "A", stockCode := "", type := TType.buy,
      quantity := 1, price := 10 } ]

/-- C3 witness input: a single sell 10@5 of stock Y with no prior buy. -/
def exC3 : List Trade :=
  [ { date := 20240110, stockName := "Y", stockCode := "", type := TType.sell,
      quantity := 10, price := 5 } ]

/-- C4 input: buy 100@10, buy 50@12, sell 80@15, in chronological order. -/
def exC4 : List Trade :=
  [ { date := 20240101, stockName := "X", stockCode := "", type := TType.buy,
      quantity := 100, price := 10 },
    { date := 20240102, stockName := "X", stockCode := "", type := TType.buy,
      quantity := 50, price := 12 },
    { date := 20240103, stockName := "X", stockCode := "", type := TType.sell,
      quantity := 80, price := 15 } ]

/-- C5 witness input: one buy in each of 15 consecutive months. -/
def exC5 : List Trade :=
  [
    { date := 20230115, stockName := "A", stockCode := "", type := TType.buy,
      quantity := 1, price := 1 },
    { date := 20230215, stockName := "A", stockCode := "", type := TType.buy,
      quantity := 1, price := 1 },
    { date := 20230315, stockName := "A", stockCode := "", type := TType.buy,
      quantity := 1, price := 1 },
    { date := 20230415, stockName := "A", stockCode := "", type := TType.buy,
      quantity := 1, price := 1 },
    { date := 20230515, stockName := "A", stockCode := "", type := TType.buy,
      quantity := 1, price := 1 },
    { date := 20230615, stockName := "A", stockCode := "", type := TType.buy,
      quantity := 1, price := 1 },
    { date := 20230715, stockName := "A", stockCode := "", type := TType.buy,
      quantity := 1, price := 1 },
    { date := 20230815, stockName := "A", stockCode := "", type := TType.buy,
      quantity := 1, price := 1 },
    { date := 20230915, stockName := "A", stockCode := "", type := TType.buy,
      quantity := 1, price := 1 },
    { date := 20231015, stockName := "A", stockCode := "", type := TType.buy,
      quantity := 1, price := 1 },
    { date := 20231115, stockName := "A", stockCode := "", type := TType.buy,
      quantity := 1, price := 1 },
    { date := 20231215, stockName := "A", stockCode := "", type := TType.buy,
      quantity := 1, price := 1 },
    { date := 20240115, stockName := "A", stockCode := "", type := TType.buy,
      quantity := 1, price := 1 },
    { date := 20240215, stockName := "A", stockCode := "", type := TType.buy,
      quantity := 1, price := 1 },
    { date := 20240315, stockName := "A", stockCode := "", type := TType.buy,
      quantity := 1, price := 1 } ]

/-- C6 witness inputs: trades of two stocks with distinct dates, with the
cross-stock relative order exchanged. -/
def exC6a : List Trade :=
  [ { date := 20240101, stockName := "A", stockCode := "", type := TType.buy,
      quantity := 1, price := 10 },
    { date := 20240102, stockName := "B", stockCode := "", type := TType.buy,
      quantity := 2, price := 7 },
    { date := 20240103, stockName := "A", stockCode := "", type := TType.sell,
      quantity := 1, price := 12 } ]

def exC6b : List Trade :=
  [ { date := 20240102, stockName := "B", stockCode := "", type := TType.buy,
      quantity := 2, price := 7 },
    { date := 20240101, stockName := "A", stockCode := "", type := TType.buy,
      quantity := 1, price := 10 },
    { date := 20240103, stockName := "A", stockCode := "", type := TType.sell,
      quantity := 1, price := 12 } ]

/-- C7 witness input: three roundtrip records, one with zero buy price. -/
def exC7 : List Trade :=
  [ { date := 20240105, stockName := "BTC", stockCode := "", type := TType.roundtrip,
      quantity := 2, price := 0, buyPrice := some 100, sellPrice := some 110,
      realizedPnl := some 20 },
    { date := 20240105, stockName := "ETH", stockCode := "", type := TType.roundtrip,
      quantity := 1, price := 0, buyPrice := some 0, sellPrice := some 50,
      realizedPnl := some 50 },
    { date := 20240105, stockName := "XRP", stockCode := "", type := TType.roundtrip,
      quantity := 4, price := 0, buyPrice := some 50, sellPrice := some 45,
      realizedPnl := some (-30) } ]

/-- C8 witness input: roundtrip with quantity 10, buyPrice 0, sellPrice 100,
realizedPnl 1000. -/
def exC8 : Trade :=
  { date := 20240105, stockName := "Z", stockCode := "", type := TType.roundtrip,
    quantity := 10, price := 0, buyPrice := some 0, sellPrice := some 100,
    realizedPnl := some 1000 }

/-- C9 witness record: a roundtrip entry. -/
def exC9rt : Trade :=
  { date := 20240102, stockName := "A", stockCode := "", type := TType.roundtrip,
    quantity := 1, price := 14, buyPrice := some 11, sellPrice := some 14,
    realizedPnl := some 3 }

/-- C9 witness input: a roundtrip record mixed with a buy of the same stock. -/
def exC9 : List Trade :=
  [ { date := 20240101, stockName := "A", stockCode := "", type := TType.buy,
      quantity := 2, price := 10 },
    { date := 20240102, stockName := "A", stockCode := "", type := TType.roundtrip,
      quantity := 1, price := 14, buyPrice := some 11, sellPrice := some 14,
      realizedPnl := some 3 } ]

/-- C10 witness input: a sell of stock Y with no buys anywhere, next to a
buy and sell of stock A in the same month. -/
def exC10 : List Trade :=
  [ { date := 20240101, stockName := "A", stockCode := "", type := TType.buy,
      quantity := 2, price := 10 },
    { date := 20240102, stockName := "Y", stockCode := "", type := TType.sell,
      quantity := 3, price := 7 },
    { date := 20240103, stockName := "A", stockCode := "", type := TType.sell,
      quantity := 1, price := 16 } ]

/- ----- association-list lemmas ----- -/

theorem mapLookup_mapUpdate_self {κ σ : Type} [DecidableEq κ] (k : κ) (v : σ) :
    ∀ m : List (κ × σ), mapLookup k (mapUpdate k v m) = some v
  | [] => by simp [mapLookup, mapUpdate]
  | (k2, v2) :: rest => by
    by_cases h : k2 = k
    · simp [mapLookup, mapUpdate, h]
    · simp [mapLookup, mapUpdate, h, mapLookup_mapUpdate_self k v rest]

theorem mapLookup_mapUpdate_ne {κ σ : Type} [DecidableEq κ] (k k2 : κ) (v : σ)
    (h : k2 ≠ k) :
    ∀ m : List (κ × σ), mapLookup k (mapUpdate k2 v m) = mapLookup k m
  | [] => by simp [mapLookup, mapUpdate, h]
  | (k3, v3) :: rest => by
    by_cases h3 : k3 = k2
    · subst h3
      simp [mapLookup, mapUpdate, h]
    · simp [mapLookup, mapUpdate, h3, mapLookup_mapUpdate_ne k k2 v h rest]

/- ----- per-key characterization of calculatePositions ----- -/

theorem lookup_foldl_calcStep (k : String) :
    ∀ (ts : List Trade) (m : List (String × StockPosition)),
      mapLookup k (ts.foldl calcStep m) = ts.foldl (optPosStep k) (mapLookup k m)
  | [], _ => rfl
  | t :: ts, m => by
    have hstep : mapLookup k (calcStep m t) = optPosStep k (mapLookup k m) t := by
      by_cases h : stockKey t = k
      · simp [calcStep, optPosStep, h, mapLookup_mapUpdate_self]
      · simp [calcStep, optPosStep, h, mapLookup_mapUpdate_ne k (stockKey t) _ h]
    simp only [List.foldl_cons, lookup_foldl_calcStep k ts (calcStep m t), hstep]

theorem foldl_optPosStep_some (k : String) :
    ∀ (ts : List Trade) (s : StockPosition),
      ts.foldl (optPosStep k) (some s) =
        some ((ts.filter fun t => stockKey t = k).foldl applyTrade s)
  | [], _ => rfl
  | t :: ts, s => by
    by_cases h : stockKey t = k
    · simp [optPosStep, h, foldl_optPosStep_some k ts (applyTrade s t)]
    · simp [optPosStep, h, foldl_optPosStep_some k ts s]

theorem foldl_optPosStep_none (k : String) :
    ∀ ts : List Trade,
      ts.foldl (optPosStep k) none = posFromList (ts.filter fun t => stockKey t = k)
  | [] => rfl
  | t :: ts => by
    by_cases h : stockKey t = k
    · simp [optPosStep, h, posFromList,
        foldl_optPosStep_some k ts (applyTrade (initPos t) t)]
    · simp [optPosStep, h, foldl_optPosStep_none k ts]

theorem positionFor_char (ts : List Trade) (k : String) :
    mapLookup k (calculatePositions ts) =
      posFromList ((sortByDate ts).filter fun t => stockKey t = k) := by
  have h0 : mapLookup k ([] : List (String × StockPosition)) = none := rfl
  rw [calculatePositions, lookup_foldl_calcStep k (sortByDate ts) [], h0,
    foldl_optPosStep_none]

/- ----- basic facts about applyTrade ----- -/

theorem applyTrade_holding (pos : StockPosition) (t : Trade) :
    (applyTrade pos t).holdingQuantity =
      (applyTrade pos t).buyQuantity - (applyTrade pos t).sellQuantity := by
  by_cases h : t.type = TType.buy <;> simp [applyTrade, h]

theorem foldl_applyTrade_holding :
    ∀ (l : List Trade) (pos : StockPosition),
      pos.holdingQuantity = pos.buyQuantity - pos.sellQuantity →
      (l.foldl applyTrade pos).holdingQuantity =
        (l.foldl applyTrade pos).buyQuantity - (l.foldl applyTrade pos).sellQuantity
  | [], _, h => h
  | t :: l, pos, _ =>
    foldl_applyTrade_holding l (applyTrade pos t) (applyTrade_holding pos t)

theorem applyTrade_sell_fields (pos : StockPosition) (t : Trade)
    (h : ¬ t.type = TType.buy) :
    (applyTrade pos t).buyQuantity = pos.buyQuantity ∧
      (applyTrade pos t).totalBuyCost = pos.totalBuyCost ∧
      (applyTrade pos t).avgBuyPrice = pos.avgBuyPrice ∧
      (applyTrade pos t).sellQuantity = pos.sellQuantity + t.quantity ∧
      (applyTrade pos t).totalSellRevenue = pos.totalSellRevenue + t.price * t.quantity ∧
      (applyTrade pos t).realizedPnL =
        pos.realizedPnL + (t.price * t.quantity - pos.avgBuyPrice * t.quantity) := by
  simp [applyTrade, h]

theorem amountSum_cons (t : Trade) (l : List Trade) :
    amountSum (t :: l) = t.price * t.quantity + amountSum l := by
  simp [amountSum]

theorem foldl_applyTrade_only_sells :
    ∀ (l : List Trade) (pos : StockPosition), (∀ t ∈ l, ¬ t.type = TType.buy) →
      (l.foldl applyTrade pos).buyQuantity = pos.buyQuantity ∧
        (l.foldl applyTrade pos).avgBuyPrice = pos.avgBuyPrice ∧
        (l.foldl applyTrade pos).sellQuantity =
          pos.sellQuantity + (l.map fun t => t.quantity).sum ∧
        (l.foldl applyTrade pos).totalSellRevenue = pos.totalSellRevenue + amountSum l ∧
        (l.foldl applyTrade pos).realizedPnL =
          pos.realizedPnL + amountSum l -
            pos.avgBuyPrice * (l.map fun t => t.quantity).sum
  | [], pos, _ => by simp [amountSum]
  | t :: l, pos, h => by
    have ht := applyTrade_sell_fields pos t (h t (List.mem_cons_self t l))
    have ih := foldl_applyTrade_only_sells l (applyTrade pos t)
      (fun u hu => h u (List.mem_cons_of_mem t hu))
    obtain ⟨hb, _, ha, hs, hr, hp⟩ := ht
    obtain ⟨ib, ia, is, ir, ip⟩ := ih
    simp only [List.foldl_cons] at *
    refine ⟨ib.trans hb, ia.trans ha, ?_, ?_, ?_⟩
    · rw [is, hs]
      simp only [List.map_cons, List.sum_cons]
      ring
    · rw [ir, hr, amountSum_cons]
      ring
    · rw [ip, hp, ha, amountSum_cons]
      simp only [List.map_cons, List.sum_cons]
      ring

theorem filter_sortByDate_perm (p : Trade → Bool) (ts : List Trade) :
    ((sortByDate ts).filter p).Perm (ts.filter p) :=
  (List.perm_insertionSort dateLe ts).filter p

theorem amountSum_sortByDate_filter (p : Trade → Bool) (ts : List Trade) :
    amountSum ((sortByDate ts).filter p) = amountSum (ts.filter p) :=
  List.Perm.sum_eq ((filter_sortByDate_perm p ts).map _)

theorem ttSellNeBuy : ¬ TType.sell = TType.buy := by decide

theorem ttRoundtripNeBuy : ¬ TType.roundtrip = TType.buy := by decide

/-- C4: on the input buy 100@10, buy 50@12, sell 80@15 (one stock, ascending
dates), calculatePositions reports avgBuyPrice = (1000+600)/150 = 32/3,
realizedPnL = (15 - 32/3) * 80 = 1040/3, holdingQuantity = 150 - 80 = 70. -/
theorem C4_worked_example :
    (mapLookup "X" (calculatePositions exC4)).map
        (fun p => (p.avgBuyPrice, p.realizedPnL, p.holdingQuantity)) =
      some ((1000 + 600) / 150, (15 - (1000 + 600) / 150) * 80, (150 : ℚ) - 80) := by
  norm_num [calculatePositions, sortByDate, List.insertionSort, List.orderedInsert,
    calcStep, applyTrade, mapLookup, mapUpdate, stockKey, initPos, exC4, dateLe,
    ttSellNeBuy]

/-- Position of a key whose records are all sells. -/
theorem realized_of_sell_only (ts : List Trade) (k : String) (p : StockPosition)
    (hp : mapLookup k (calculatePositions ts) = some p)
    (h : ∀ t ∈ ts, stockKey t = k → ¬ t.type = TType.buy) :
    p.avgBuyPrice = 0 ∧ p.buyQuantity = 0 ∧
      p.realizedPnL = amountSum (ts.filter fun t => stockKey t = k) ∧
      p.realizedPnL = p.totalSellRevenue ∧
      p.holdingQuantity = -p.sellQuantity := by
  rw [positionFor_char] at hp
  have hmem : ∀ u ∈ (sortByDate ts).filter (fun t => stockKey t = k),
      ¬ u.type = TType.buy := by
    intro u hu
    rw [List.mem_filter] at hu
    have hu1 : u ∈ ts := (List.perm_insertionSort dateLe ts).subset hu.1
    exact h u hu1 (by simpa using hu.2)
  have hsum : amountSum ((sortByDate ts).filter fun t => stockKey t = k) =
      amountSum (ts.filter fun t => stockKey t = k) :=
    amountSum_sortByDate_filter _ ts
  rcases hl : (sortByDate ts).filter (fun t => stockKey t = k) with _ | ⟨t, r⟩
  · rw [hl] at hp
    simp [posFromList] at hp
  · rw [hl] at hp hmem
    rw [hl] at hsum
    simp only [posFromList, Option.some_inj] at hp
    have ht : ¬ t.type = TType.buy := hmem t (List.mem_cons_self t r)
    have hr : ∀ u ∈ r, ¬ u.type = TType.buy :=
      fun u hu => hmem u (List.mem_cons_of_mem t hu)
    obtain ⟨hb0, _, ha0, hs0, hv0, hp0⟩ := applyTrade_sell_fields (initPos t) t ht
    obtain ⟨ib, ia, _, ir, ip⟩ := foldl_applyTrade_only_sells r (applyTrade (initPos t) t) hr
    have hhold := foldl_applyTrade_holding r (applyTrade (initPos t) t)
      (applyTrade_holding (initPos t) t)
    subst hp
    have havg : (r.foldl applyTrade (applyTrade (initPos t) t)).avgBuyPrice = 0 := by
      rw [ia, ha0]
      rfl
    have hbuy : (r.foldl applyTrade (applyTrade (initPos t) t)).buyQuantity = 0 := by
      rw [ib, hb0]
      rfl
    refine ⟨havg, hbuy, ?_, ?_, ?_⟩
    · rw [ip, hp0, ha0, ← hsum, amountSum_cons]
      simp [initPos]
    · rw [ip, ir, hp0, hv0, ha0]
      simp [initPos]
    · rw [hhold, hbuy]
      ring

/-- C3: when every record of a stock key is a sell (no buys anywhere in the
collection), the returned position keeps avgBuyPrice = 0 and buyQuantity = 0,
its realizedPnL equals the full sell revenue of the key (so it also equals
totalSellRevenue), and holdingQuantity is minus the sold quantity; in
particular over-selling is not rejected and holdingQuantity goes negative. -/
theorem C3_sell_only_key (ts : List Trade) (k : String) (p : StockPosition)
    (hp : mapLookup k (calculatePositions ts) = some p)
    (h : ∀ t ∈ ts, stockKey t = k → ¬ t.type = TType.buy) :
    p.avgBuyPrice = 0 ∧ p.buyQuantity = 0 ∧
      p.realizedPnL = amountSum (ts.filter fun t => stockKey t = k) ∧
      p.realizedPnL = p.totalSellRevenue ∧
      p.holdingQuantity = -p.sellQuantity :=
  realized_of_sell_only ts k p hp h

/-- C3 witness: the single-sell input (sell 10@5 of stock Y, no buy)
instantiates the theorem; the concrete position has realizedPnL = 50 (the
full revenue) and holdingQuantity = -10. -/
theorem C3_sell_only_key_witness :
    mapLookup "Y" (calculatePositions exC3) =
        some (StockPosition.mk "Y" "" 0 10 (-10) 0 0 50 50) ∧
      ((StockPosition.mk "Y" "" 0 10 (-10) 0 0 50 50).avgBuyPrice = 0 ∧
        (StockPosition.mk "Y" "" 0 10 (-10) 0 0 50 50).buyQuantity = 0 ∧
        (StockPosition.mk "Y" "" 0 10 (-10) 0 0 50 50).realizedPnL =
          amountSum (exC3.filter fun t => stockKey t = "Y") ∧
        (StockPosition.mk "Y" "" 0 10 (-10) 0 0 50 50).realizedPnL =
          (StockPosition.mk "Y" "" 0 10 (-10) 0 0 50 50).totalSellRevenue ∧
        (StockPosition.mk "Y" "" 0 10 (-10) 0 0 50 50).holdingQuantity =
          -(StockPosition.mk "Y" "" 0 10 (-10) 0 0 50 50).sellQuantity) :=
  ⟨by norm_num [calculatePositions, sortByDate, List.insertionSort, List.orderedInsert,
      calcStep, applyTrade, mapLookup, mapUpdate, stockKey, initPos, exC3, dateLe,
      ttSellNeBuy],
    C3_sell_only_key exC3 "Y" _
      (by norm_num [calculatePositions, sortByDate, List.insertionSort,
        List.orderedInsert, calcStep, applyTrade, mapLookup, mapUpdate, stockKey,
        initPos, exC3, dateLe, ttSellNeBuy])
      (by decide)⟩

/-- C2 counterexample: the two same-date same-stock trades buy 1@10 and
sell 1@20, given in the two input orders, are permutations of each other,
yet the final realizedPnL of the stock is 10 in one order and 20 in the
other (the stable sort preserves the input order of same-date records, and
a sell processed before any buy is costed against average 0). -/
theorem C2_counterexample :
    exC2a.Perm exC2b ∧ exC2a.map stockKey = ["A", "A"] ∧
      exC2b.map stockKey = ["A", "A"] ∧
      (mapLookup "A" (calculatePositions exC2a)).map (fun p => p.realizedPnL) =
        some 10 ∧
      (mapLookup "A" (calculatePositions exC2b)).map (fun p => p.realizedPnL) =
        some 20 ∧
      ¬ (10 : ℚ) = 20 := by
  refine ⟨by decide, by decide, by decide, ?_, ?_, by norm_num⟩
  · norm_num [calculatePositions, sortByDate, List.insertionSort, List.orderedInsert,
      calcStep, applyTrade, mapLookup, mapUpdate, stockKey, initPos, exC2a, dateLe,
      ttSellNeBuy]
  · norm_num [calculatePositions, sortByDate, List.insertionSort, List.orderedInsert,
      calcStep, applyTrade, mapLookup, mapUpdate, stockKey, initPos, exC2b, dateLe,
      ttSellNeBuy]

/-- C2 amended: permutation invariance of calculatePositions holds when the
dates of the records are pairwise distinct (then sorting by date restores a
unique processing order, so the entire output — in particular every stock's
realizedPnL — is unchanged); with same-date trades it can fail, as the
counterexample shows. -/
theorem C2_amended_distinct_dates (ts1 ts2 : List Trade) (hperm : ts1.Perm ts2)
    (hnd : (ts1.map fun t => t.date).Nodup) :
    calculatePositions ts1 = calculatePositions ts2 := by
  have h1 : (sortByDate ts1).Perm ts1 := List.perm_insertionSort dateLe ts1
  have h2 : (sortByDate ts2).Perm ts2 := List.perm_insertionSort dateLe ts2
  have hs1 : List.Sorted dateLe (sortByDate ts1) := List.sorted_insertionSort dateLe ts1
  have hs2 : List.Sorted dateLe (sortByDate ts2) := List.sorted_insertionSort dateLe ts2
  have hnd2 : (ts2.map fun t => t.date).Nodup := ((hperm.map _).nodup_iff).mp hnd
  have hnd1s : ((sortByDate ts1).map fun t => t.date).Nodup :=
    ((h1.map _).nodup_iff).mpr hnd
  have hnd2s : ((sortByDate ts2).map fun t => t.date).Nodup :=
    ((h2.map _).nodup_iff).mpr hnd2
  have hlt1 : List.Sorted dateLt (sortByDate ts1) :=
    ((hs1.and (List.pairwise_map.mp hnd1s)).imp
      fun h => Nat.lt_of_le_of_ne h.1 h.2)
  have hlt2 : List.Sorted dateLt (sortByDate ts2) :=
    ((hs2.and (List.pairwise_map.mp hnd2s)).imp
      fun h => Nat.lt_of_le_of_ne h.1 h.2)
  have hsorteq : sortByDate ts1 = sortByDate ts2 :=
    List.eq_of_perm_of_sorted (r := dateLt) (h1.trans (hperm.trans h2.symm)) hlt1 hlt2
  unfold calculatePositions
  rw [hsorteq]

/-- C2 witness: the distinct-date pair buy 1@10 (Jan 5) and sell 1@20
(Jan 6), permuted, give identical outputs. -/
theorem C2_amended_distinct_dates_witness :
    exC2c.Perm exC2d ∧ (exC2c.map fun t => t.date).Nodup ∧
      calculatePositions exC2c = calculatePositions exC2d :=
  ⟨by decide, by decide, C2_amended_distinct_dates exC2c exC2d (by decide) (by decide)⟩

/- ----- filter commutes with the stable sort ----- -/

theorem orderedInsert_eq_cons (a : Trade) :
    ∀ l : List Trade, (∀ c ∈ l, a.date ≤ c.date) →
      List.orderedInsert dateLe a l = a :: l
  | [], _ => rfl
  | c :: l, h => by
    have hac : dateLe a c := h c (List.mem_cons_self c l)
    simp [List.orderedInsert, hac]

theorem filter_orderedInsert (q : Trade → Bool) (a : Trade) :
    ∀ l : List Trade, List.Sorted dateLe l →
      (List.orderedInsert dateLe a l).filter q =
        if q a then List.orderedInsert dateLe a (l.filter q) else l.filter q
  | [], _ => by
    by_cases hqa : q a <;> simp [List.orderedInsert, hqa]
  | b :: l, hs => by
    obtain ⟨hb, hl⟩ := List.sorted_cons.mp hs
    have ih := filter_orderedInsert q a l hl
    by_cases hab : dateLe a b
    · by_cases hqa : q a
      · by_cases hqb : q b
        · simp [List.orderedInsert, hab, hqa, hqb]
        · have hcons : List.orderedInsert dateLe a (l.filter q) = a :: l.filter q := by
            apply orderedInsert_eq_cons
            intro c hc
            exact Nat.le_trans hab (hb c (List.mem_of_mem_filter hc))
          simp [List.orderedInsert, hab, hqa, hqb, hcons]
      · by_cases hqb : q b <;> simp [List.orderedInsert, hab, hqa, hqb]
    · by_cases hqa : q a
      · by_cases hqb : q b <;> simp [List.orderedInsert, hab, hqa, hqb, ih]
      · by_cases hqb : q b <;> simp [List.orderedInsert, hab, hqa, hqb, ih]

theorem filter_sortByDate (q : Trade → Bool) :
    ∀ ts : List Trade, (sortByDate ts).filter q = sortByDate (ts.filter q)
  | [] => rfl
  | t :: ts => by
    have ih := filter_sortByDate q ts
    have hs : List.Sorted dateLe (sortByDate ts) := List.sorted_insertionSort dateLe ts
    have hins : (List.orderedInsert dateLe t ((sortByDate ts).filter q)) =
        List.orderedInsert dateLe t (sortByDate (ts.filter q)) := by rw [ih]
    by_cases hq : q t
    · simp only [sortByDate, List.insertionSort] at *
      rw [filter_orderedInsert q t _ hs, if_pos hq, hins, List.filter_cons_of_pos hq,
        List.insertionSort]
    · simp only [sortByDate, List.insertionSort] at *
      rw [filter_orderedInsert q t _ hs, if_neg hq, ih, List.filter_cons_of_neg hq]

/-- C6: the final position of a stock key depends only on the subsequence of
the input made of that key's records: any two inputs (in particular, any two
permutations of the same records) that agree on the key's subsequence — as
every reordering that only exchanges cross-stock, distinct-date relative
order does — produce the same full StockPosition for the key (all fields). -/
theorem C6_cross_stock_reorder (ts1 ts2 : List Trade) (k : String)
    (h : ts1.filter (fun t => stockKey t = k) = ts2.filter (fun t => stockKey t = k)) :
    mapLookup k (calculatePositions ts1) = mapLookup k (calculatePositions ts2) := by
  rw [positionFor_char, positionFor_char, filter_sortByDate, filter_sortByDate, h]

/-- C6 witness: exchanging the relative order of the stock-B buy against the
distinct-date stock-A trades leaves the position of stock A unchanged. -/
theorem C6_cross_stock_reorder_witness :
    exC6a.filter (fun t => stockKey t = "A") = exC6b.filter (fun t => stockKey t = "A") ∧
      mapLookup "A" (calculatePositions exC6a) = mapLookup "A" (calculatePositions exC6b) :=
  ⟨by decide, C6_cross_stock_reorder exC6a exC6b "A" (by decide)⟩

/- ----- per-key characterization of the first pass of getMonthlyStats ----- -/

theorem avgStep_foldl_lookup (k : String) :
    ∀ (ts : List Trade) (m1 : List (String × AvgAcc)) (m2 : List (String × ℚ)),
      (mapLookup k ((ts.foldl avgStep (m1, m2)).1),
        mapLookup k ((ts.foldl avgStep (m1, m2)).2)) =
        (ts.filter fun t => t.type = TType.buy ∧ stockKey t = k).foldl accPairStep
          (mapLookup k m1, mapLookup k m2)
  | [], _, _ => rfl
  | t :: ts, m1, m2 => by
    by_cases hbuy : t.type = TType.buy
    · by_cases hk : stockKey t = k
      · have hstep : avgStep (m1, m2) t =
            (mapUpdate (stockKey t) (accUpd ((mapLookup (stockKey t) m1).getD ⟨0, 0⟩) t) m1,
              mapUpdate (stockKey t)
                (avgOf (accUpd ((mapLookup (stockKey t) m1).getD ⟨0, 0⟩) t)) m2) := by
          simp [avgStep, hbuy, accUpd, avgOf]
        have ih := avgStep_foldl_lookup k ts
          (mapUpdate (stockKey t) (accUpd ((mapLookup (stockKey t) m1).getD ⟨0, 0⟩) t) m1)
          (mapUpdate (stockKey t)
            (avgOf (accUpd ((mapLookup (stockKey t) m1).getD ⟨0, 0⟩) t)) m2)
        rw [List.foldl_cons, hstep, ih, List.filter_cons_of_pos (by simp [hbuy, hk]),
          List.foldl_cons]
        rw [hk, mapLookup_mapUpdate_self, mapLookup_mapUpdate_self]
        rfl
      · have hstep : mapLookup k ((avgStep (m1, m2) t).1) = mapLookup k m1 ∧
            mapLookup k ((avgStep (m1, m2) t).2) = mapLookup k m2 := by
          constructor <;>
            simp [avgStep, hbuy, mapLookup_mapUpdate_ne k (stockKey t) _ hk]
        have ih := avgStep_foldl_lookup k ts ((avgStep (m1, m2) t).1)
          ((avgStep (m1, m2) t).2)
        rw [List.foldl_cons, List.filter_cons_of_neg (by simp [hk])]
        rw [show avgStep (m1, m2) t =
            ((avgStep (m1, m2) t).1, (avgStep (m1, m2) t).2) from rfl] at ih ⊢
        rw [ih, hstep.1, hstep.2]
    · have hstep : avgStep (m1, m2) t = (m1, m2) := by simp [avgStep, hbuy]
      have ih := avgStep_foldl_lookup k ts m1 m2
      rw [List.foldl_cons, hstep, ih, List.filter_cons_of_neg (by simp [hbuy])]

theorem accPairStep_foldl :
    ∀ (bs : List Trade) (a : AvgAcc) (o2 : Option ℚ),
      bs.foldl accPairStep (some a, o2) =
        (some (bs.foldl accUpd a),
          if bs = [] then o2 else some (avgOf (bs.foldl accUpd a)))
  | [], _, _ => rfl
  | t :: r, a, o2 => by
    rw [List.foldl_cons, show accPairStep (some a, o2) t =
      (some (accUpd a t), some (avgOf (accUpd a t))) from rfl,
      accPairStep_foldl r (accUpd a t) (some (avgOf (accUpd a t)))]
    cases r <;> simp

theorem monthAvgPositions_lookup (ts : List Trade) (k : String) :
    mapLookup k (monthAvgPositions ts) =
      ratioOfBuys ((sortByDate ts).filter fun t => t.type = TType.buy ∧ stockKey t = k) := by
  have h := avgStep_foldl_lookup k (sortByDate ts) [] []
  have h2 := congrArg Prod.snd h
  simp only at h2
  rw [show mapLookup k (monthAvgPositions ts) =
    mapLookup k (((sortByDate ts).foldl avgStep ([], [])).2) from rfl, h2]
  rcases hfe : (sortByDate ts).filter fun t => t.type = TType.buy ∧ stockKey t = k with
    _ | ⟨b, r⟩
  · rw [hfe]
    rfl
  · rw [hfe, List.foldl_cons, show accPairStep (mapLookup k ([] : List (String × AvgAcc)),
      mapLookup k ([] : List (String × ℚ))) b =
      (some (accUpd ⟨0, 0⟩ b), some (avgOf (accUpd ⟨0, 0⟩ b))) from rfl,
      accPairStep_foldl r (accUpd ⟨0, 0⟩ b) (some (avgOf (accUpd ⟨0, 0⟩ b)))]
    rcases r with _ | ⟨c, r2⟩ <;> simp [ratioOfBuys]

theorem foldl_accUpd_sum :
    ∀ (bs : List Trade) (a : AvgAcc),
      bs.foldl accUpd a =
        ⟨a.totalCost + amountSum bs, a.totalQty + (bs.map fun t => t.quantity).sum⟩
  | [], a => by simp [amountSum]
  | t :: r, a => by
    rw [List.foldl_cons, foldl_accUpd_sum r (accUpd a t), amountSum_cons]
    simp only [accUpd, List.map_cons, List.sum_cons]
    congr 1 <;> ring

theorem amountSum_perm {l1 l2 : List Trade} (h : l1.Perm l2) :
    amountSum l1 = amountSum l2 :=
  List.Perm.sum_eq (h.map _)

theorem lookupAvg_eq_finalAvgSpec (ts : List Trade) (t : Trade) :
    lookupAvg (monthAvgPositions ts) t = finalAvgSpec ts t := by
  simp only [lookupAvg, finalAvgSpec, monthAvgPositions_lookup ts (stockKey t)]
  have hperm : ((sortByDate ts).filter
        fun u => u.type = TType.buy ∧ stockKey u = stockKey t).Perm
      (ts.filter fun u => u.type = TType.buy ∧ stockKey u = stockKey t) :=
    filter_sortByDate_perm _ ts
  rcases hfe : ts.filter (fun u => u.type = TType.buy ∧ stockKey u = stockKey t) with
    _ | ⟨b, r⟩
  · rw [hfe] at hperm
    rw [hperm.eq_nil, hfe]
    simp [ratioOfBuys]
  · rw [hfe] at hperm
    rcases hse : (sortByDate ts).filter
        (fun u => u.type = TType.buy ∧ stockKey u = stockKey t) with _ | ⟨c, r2⟩
    · rw [hse] at hperm
      exact absurd hperm.symm.eq_nil (by simp)
    · rw [hse] at hperm
      rw [hse, hfe]
      have hsum1 : amountSum (c :: r2) = amountSum (b :: r) := amountSum_perm hperm
      have hsum2 : ((c :: r2).map fun u => u.quantity).sum =
          ((b :: r).map fun u => u.quantity).sum :=
        List.Perm.sum_eq (hperm.map _)
      simp only [ratioOfBuys, foldl_accUpd_sum, avgOf, amountSum] at hsum1 hsum2 ⊢
      rw [hsum1, hsum2]
      simp

/- ----- per-month characterization of the second pass of getMonthlyStats ----- -/

theorem lookup_foldl_monthStep (pm : List (String × ℚ)) (mo : Nat) :
    ∀ (ts : List Trade) (m : List (Nat × MonthEntry)),
      mapLookup mo (ts.foldl (monthStep pm) m) =
        ts.foldl (optEntryStep pm mo) (mapLookup mo m)
  | [], _ => rfl
  | t :: ts, m => by
    have hstep : mapLookup mo (monthStep pm m t) = optEntryStep pm mo (mapLookup mo m) t := by
      by_cases h : monthOf t = mo
      · simp [monthStep, optEntryStep, h, mapLookup_mapUpdate_self]
      · simp [monthStep, optEntryStep, h, mapLookup_mapUpdate_ne mo (monthOf t) _ h]
    simp only [List.foldl_cons, lookup_foldl_monthStep pm mo ts (monthStep pm m t), hstep]

theorem foldl_optEntryStep_some (pm : List (String × ℚ)) (mo : Nat) :
    ∀ (ts : List Trade) (e : MonthEntry),
      ts.foldl (optEntryStep pm mo) (some e) =
        some ((ts.filter fun t => monthOf t = mo).foldl (entryUpd pm) e)
  | [], _ => rfl
  | t :: ts, e => by
    by_cases h : monthOf t = mo
    · simp [optEntryStep, h, foldl_optEntryStep_some pm mo ts (entryUpd pm e t)]
    · simp [optEntryStep, h, foldl_optEntryStep_some pm mo ts e]

theorem foldl_optEntryStep_none (pm : List (String × ℚ)) (mo : Nat) :
    ∀ ts : List Trade,
      ts.foldl (optEntryStep pm mo) none =
        entryFromList pm (ts.filter fun t => monthOf t = mo)
  | [] => rfl
  | t :: ts => by
    by_cases h : monthOf t = mo
    · simp [optEntryStep, h, entryFromList,
        foldl_optEntryStep_some pm mo ts (entryUpd pm zeroEntry t)]
    · simp [optEntryStep, h, foldl_optEntryStep_none pm mo ts]

theorem entry_foldl_char (pm : List (String × ℚ)) :
    ∀ (l : List Trade) (e : MonthEntry),
      (l.foldl (entryUpd pm) e).buyAmount =
          e.buyAmount + amountSum (l.filter fun t => t.type = TType.buy) ∧
        (l.foldl (entryUpd pm) e).sellAmount =
          e.sellAmount + amountSum (l.filter fun t => ¬ t.type = TType.buy) ∧
        (l.foldl (entryUpd pm) e).pnl =
          e.pnl + ((l.filter fun t => ¬ t.type = TType.buy).map
            fun t => (t.price - lookupAvg pm t) * t.quantity).sum ∧
        (l.foldl (entryUpd pm) e).count = e.count + l.length
  | [], e => by simp [amountSum]
  | t :: l, e => by
    have ih := entry_foldl_char pm l (entryUpd pm e t)
    obtain ⟨ib, is, ip, ic⟩ := ih
    by_cases h : t.type = TType.buy
    · have hb : (entryUpd pm e t).buyAmount = e.buyAmount + t.price * t.quantity := by
        simp [entryUpd, h]
      have hs : (entryUpd pm e t).sellAmount = e.sellAmount := by simp [entryUpd, h]
      have hp : (entryUpd pm e t).pnl = e.pnl := by simp [entryUpd, h]
      have hc : (entryUpd pm e t).count = e.count + 1 := by simp [entryUpd, h]
      refine ⟨?_, ?_, ?_, ?_⟩
      · rw [List.foldl_cons, ib, hb, List.filter_cons_of_pos (by simp [h]), amountSum_cons]
        ring
      · rw [List.foldl_cons, is, hs, List.filter_cons_of_neg (by simp [h])]
      · rw [List.foldl_cons, ip, hp, List.filter_cons_of_neg (by simp [h])]
      · rw [List.foldl_cons, ic, hc, List.length_cons]
        omega
    · have hb : (entryUpd pm e t).buyAmount = e.buyAmount := by simp [entryUpd, h]
      have hs : (entryUpd pm e t).sellAmount = e.sellAmount + t.price * t.quantity := by
        simp [entryUpd, h]
      have hp : (entryUpd pm e t).pnl =
          e.pnl + (t.price - lookupAvg pm t) * t.quantity := by
        simp [entryUpd, h]
      have hc : (entryUpd pm e t).count = e.count + 1 := by simp [entryUpd, h]
      refine ⟨?_, ?_, ?_, ?_⟩
      · rw [List.foldl_cons, ib, hb, List.filter_cons_of_neg (by simp [h])]
      · rw [List.foldl_cons, is, hs, List.filter_cons_of_pos (by simp [h]), amountSum_cons]
        ring
      · rw [List.foldl_cons, ip, hp, List.filter_cons_of_pos (by simp [h]),
          List.map_cons, List.sum_cons]
        ring
      · rw [List.foldl_cons, ic, hc, List.length_cons]
        omega

/- ----- keys of the month map ----- -/

theorem keysOf_mapUpdate_subset {κ σ : Type} [DecidableEq κ] (k : κ) (v : σ) :
    ∀ m : List (κ × σ), keysOf (mapUpdate k v m) ⊆ k :: keysOf m
  | [] => by simp [keysOf, mapUpdate]
  | (k2, v2) :: rest => by
    by_cases h : k2 = k
    · subst h
      simp [keysOf, mapUpdate]
    · intro x hx
      simp only [keysOf, mapUpdate, if_neg h, List.map_cons, List.mem_cons] at hx
      rcases hx with hx | hx
      · subst hx
        simp [keysOf]
      · have := keysOf_mapUpdate_subset k v rest hx
        simp only [List.mem_cons] at this ⊢
        tauto

theorem keysOf_mapUpdate_nodup {κ σ : Type} [DecidableEq κ] (k : κ) (v : σ) :
    ∀ m : List (κ × σ), (keysOf m).Nodup → (keysOf (mapUpdate k v m)).Nodup
  | [], _ => by simp [keysOf, mapUpdate]
  | (k2, v2) :: rest, h => by
    simp only [keysOf, List.map_cons, List.nodup_cons] at h
    by_cases hk : k2 = k
    · subst hk
      simpa [mapUpdate, keysOf, List.nodup_cons] using h
    · simp only [mapUpdate, if_neg hk, keysOf, List.map_cons, List.nodup_cons]
      refine ⟨?_, keysOf_mapUpdate_nodup k v rest h.2⟩
      intro hmem
      have := keysOf_mapUpdate_subset k v rest hmem
      simp only [List.mem_cons] at this
      rcases this with h1 | h1
      · exact hk h1
      · exact h.1 h1

theorem mapLookup_of_mem_nodup {κ σ : Type} [DecidableEq κ] :
    ∀ m : List (κ × σ), (keysOf m).Nodup → ∀ k v, (k, v) ∈ m → mapLookup k m = some v
  | [], _, k, v, h => by simp at h
  | (k2, v2) :: rest, hd, k, v, h => by
    simp only [keysOf, List.map_cons, List.nodup_cons] at hd
    rcases List.mem_cons.mp h with h1 | h1
    · injection h1 with ha hb
      subst ha
      subst hb
      simp [mapLookup]
    · by_cases hk : k2 = k
      · subst hk
        exact absurd (by simpa [keysOf] using List.mem_map_of_mem Prod.fst h1) hd.1
      · simp only [mapLookup, if_neg hk]
        exact mapLookup_of_mem_nodup rest hd.2 k v h1

theorem mapLookup_eq_none_iff {κ σ : Type} [DecidableEq κ] :
    ∀ (m : List (κ × σ)) (k : κ), mapLookup k m = none ↔ k ∉ keysOf m
  | [], k => by simp [mapLookup, keysOf]
  | (k2, v2) :: rest, k => by
    by_cases h : k2 = k
    · subst h
      simp [mapLookup, keysOf]
    · have h1 : mapLookup k ((k2, v2) :: rest) = mapLookup k rest := by
        simp [mapLookup, h]
      have h2 : k ∈ keysOf ((k2, v2) :: rest) ↔ k ∈ keysOf rest := by
        simp only [keysOf, List.map_cons, List.mem_cons]
        constructor
        · rintro (h3 | h3)
          · exact absurd h3.symm h
          · exact h3
        · exact fun h3 => Or.inr h3
      rw [h1, mapLookup_eq_none_iff rest k]
      exact not_congr h2.symm

theorem foldl_monthStep_nodupKeys (pm : List (String × ℚ)) :
    ∀ (ts : List Trade) (m : List (Nat × MonthEntry)),
      (keysOf m).Nodup → (keysOf (ts.foldl (monthStep pm) m)).Nodup
  | [], _, h => h
  | t :: ts, m, h =>
    foldl_monthStep_nodupKeys pm ts (monthStep pm m t)
      (keysOf_mapUpdate_nodup (monthOf t) _ m h)

theorem getMonthlyStats_eq (ts : List Trade) :
    getMonthlyStats ts =
      (List.insertionSort statLe
        (((sortByDate ts).foldl (monthStep (monthAvgPositions ts)) []).map toStat)).drop
        ((List.insertionSort statLe
          (((sortByDate ts).foldl (monthStep (monthAvgPositions ts)) []).map
            toStat)).length - 12) := rfl

theorem mem_getMonthlyStats_char (ts : List Trade) (s : MonthlyStat)
    (hs : s ∈ getMonthlyStats ts) :
    ((sortByDate ts).filter fun t => monthOf t = s.month) ≠ [] ∧
      s.buyAmount = amountSum (((sortByDate ts).filter fun t => monthOf t = s.month).filter
        fun t => t.type = TType.buy) ∧
      s.sellAmount = amountSum (((sortByDate ts).filter fun t => monthOf t = s.month).filter
        fun t => ¬ t.type = TType.buy) ∧
      s.pnl = ((((sortByDate ts).filter fun t => monthOf t = s.month).filter
          fun t => ¬ t.type = TType.buy).map
          fun t => (t.price - lookupAvg (monthAvgPositions ts) t) * t.quantity).sum ∧
      s.count = ((sortByDate ts).filter fun t => monthOf t = s.month).length := by
  rw [getMonthlyStats_eq] at hs
  have hs2 := List.mem_of_mem_drop hs
  have hs3 : s ∈ ((sortByDate ts).foldl (monthStep (monthAvgPositions ts)) []).map toStat :=
    (List.perm_insertionSort statLe _).subset hs2
  obtain ⟨p, hpmem, hps⟩ := List.mem_map.mp hs3
  have hnd : (keysOf ((sortByDate ts).foldl (monthStep (monthAvgPositions ts)) [])).Nodup :=
    foldl_monthStep_nodupKeys _ (sortByDate ts) [] (by simp [keysOf])
  have hlk : mapLookup p.1
      ((sortByDate ts).foldl (monthStep (monthAvgPositions ts)) []) = some p.2 := by
    apply mapLookup_of_mem_nodup _ hnd
    rw [Prod.mk.eta]
    exact hpmem
  rw [lookup_foldl_monthStep,
    show mapLookup p.1 ([] : List (Nat × MonthEntry)) = none from rfl,
    foldl_optEntryStep_none] at hlk
  rcases hfl : (sortByDate ts).filter (fun t => monthOf t = p.1) with _ | ⟨b, r⟩
  · rw [hfl] at hlk
    exact absurd hlk (by simp [entryFromList])
  · rw [hfl] at hlk
    simp only [entryFromList, Option.some_inj] at hlk
    obtain ⟨cb, cs, cp, cc⟩ := entry_foldl_char (monthAvgPositions ts) (b :: r) zeroEntry
    subst hps
    simp only [toStat]
    rw [hfl, ← hlk, cb, cs, cp, cc]
    refine ⟨by simp, by simp [zeroEntry], by simp [zeroEntry], by simp [zeroEntry],
      by simp [zeroEntry]⟩

/- ----- helper characterizations shared by the monthly-stats claims ----- -/

theorem monthly_pnl_char (ts : List Trade) (s : MonthlyStat)
    (hs : s ∈ getMonthlyStats ts) :
    s.pnl = ((monthSells ts s.month).map
      fun t => (t.price - finalAvgSpec ts t) * t.quantity).sum := by
  obtain ⟨_, _, _, hpnl, _⟩ := mem_getMonthlyStats_char ts s hs
  rw [hpnl]
  have hrw : ∀ t : Trade, lookupAvg (monthAvgPositions ts) t = finalAvgSpec ts t :=
    lookupAvg_eq_finalAvgSpec ts
  simp only [hrw]
  apply List.Perm.sum_eq
  apply List.Perm.map
  simp only [monthSells]
  exact (filter_sortByDate_perm _ ts).filter _

theorem monthly_sellAmount_char (ts : List Trade) (s : MonthlyStat)
    (hs : s ∈ getMonthlyStats ts) :
    s.sellAmount = amountSum (monthSells ts s.month) := by
  obtain ⟨_, _, hsell, _, _⟩ := mem_getMonthlyStats_char ts s hs
  rw [hsell]
  apply amountSum_perm
  simp only [monthSells]
  exact (filter_sortByDate_perm _ ts).filter _

theorem monthly_buyAmount_char (ts : List Trade) (s : MonthlyStat)
    (hs : s ∈ getMonthlyStats ts) :
    s.buyAmount = amountSum ((ts.filter fun t => monthOf t = s.month).filter
      fun t => t.type = TType.buy) := by
  obtain ⟨_, hbuy, _, _, _⟩ := mem_getMonthlyStats_char ts s hs
  rw [hbuy]
  exact amountSum_perm ((filter_sortByDate_perm _ ts).filter _)

theorem monthly_count_char (ts : List Trade) (s : MonthlyStat)
    (hs : s ∈ getMonthlyStats ts) :
    s.count = (ts.filter fun t => monthOf t = s.month).length := by
  obtain ⟨_, _, _, _, hc⟩ := mem_getMonthlyStats_char ts s hs
  rw [hc]
  exact (filter_sortByDate_perm _ ts).length_eq

/-- C1 (amended): the pnl of every returned month bucket is the sum, over
the non-buy records of that month, of (price - finalAvgSpec) * quantity,
where finalAvgSpec is the average buy price over ALL buys of the stock in
the ENTIRE collection (falling back to the sell's own price when the stock
has no buys or the stored average is 0) — the final full-history average,
not the running point-in-time average of the Position Aggregator. -/
theorem C1_monthly_pnl_final_avg (ts : List Trade) (s : MonthlyStat)
    (hs : s ∈ getMonthlyStats ts) :
    s.pnl = ((monthSells ts s.month).map
      fun t => (t.price - finalAvgSpec ts t) * t.quantity).sum :=
  monthly_pnl_char ts s hs

/-- C1 counterexample: for buy 1@10, sell 1@10, buy 1@30 (one stock, one
month), the code's month pnl is (10 - 20) * 1 = -10 — it uses the final
average 20, which includes the buy that happens after the sell — while the
spec's running point-in-time computation gives (10 - 10) * 1 = 0. -/
theorem C1_counterexample :
    (getMonthlyStats exC1).map (fun s => (s.month, s.pnl)) = [(202401, -10)] ∧
      monthlyPnlRunningSpec exC1 202401 = 0 ∧ ¬ ((-10 : ℚ) = 0) := by
  refine ⟨?_, ?_, by norm_num⟩
  · norm_num [getMonthlyStats, sortByDate, List.insertionSort, List.orderedInsert,
      avgStep, monthStep, entryUpd, lookupAvg, mapLookup, mapUpdate, stockKey,
      monthOf, zeroEntry, toStat, statLe, exC1, dateLe, ttSellNeBuy]
  · norm_num [monthlyPnlRunningSpec, runningStep, sortByDate, List.insertionSort,
      List.orderedInsert, applyTrade, mapLookup, mapUpdate, stockKey, monthOf,
      initPos, exC1, dateLe, ttSellNeBuy]

/-- C1 witness: buy 2@10 in January, sell 1@20 in February; the February
bucket is returned with pnl = (20 - 10) * 1 = 10, matching the amended
formula. -/
theorem C1_monthly_pnl_final_avg_witness :
    (MonthlyStat.mk 202402 0 20 10 1) ∈ getMonthlyStats exC1w ∧
      (MonthlyStat.mk 202402 0 20 10 1).pnl =
        ((monthSells exC1w (MonthlyStat.mk 202402 0 20 10 1).month).map
          fun t => (t.price - finalAvgSpec exC1w t) * t.quantity).sum := by
  have hmem : (MonthlyStat.mk 202402 0 20 10 1) ∈ getMonthlyStats exC1w := by
    norm_num [getMonthlyStats, sortByDate, List.insertionSort, List.orderedInsert,
      avgStep, monthStep, entryUpd, lookupAvg, mapLookup, mapUpdate, stockKey,
      monthOf, zeroEntry, toStat, statLe, exC1w, dateLe, ttSellNeBuy]
  exact ⟨hmem, C1_monthly_pnl_final_avg exC1w _ hmem⟩

theorem sum_map_filter_zero (f : Trade → ℚ) (p : Trade → Prop) [DecidablePred p] :
    ∀ l : List Trade, (∀ t ∈ l, p t → f t = 0) →
      (l.map f).sum = ((l.filter fun t => ¬ p t).map f).sum
  | [], _ => rfl
  | t :: l, h => by
    have ih := sum_map_filter_zero f p l (fun u hu => h u (List.mem_cons_of_mem t hu))
    by_cases hp : p t
    · rw [List.map_cons, List.sum_cons, h t (List.mem_cons_self t l) hp,
        List.filter_cons_of_neg (by simp [hp]), ih, zero_add]
    · rw [List.map_cons, List.sum_cons, List.filter_cons_of_pos (by simp [hp]),
        List.map_cons, List.sum_cons, ih]

theorem strANeY : ¬ (("A" : String) = "Y") := by decide

theorem finalAvgSpec_of_no_buys (ts : List Trade) (k : String) (t : Trade)
    (htk : stockKey t = k)
    (h : ∀ u ∈ ts, stockKey u = k → ¬ u.type = TType.buy) :
    finalAvgSpec ts t = t.price := by
  have hb : ts.filter (fun u => u.type = TType.buy ∧ stockKey u = stockKey t) = [] := by
    rw [List.filter_eq_nil_iff]
    intro u hu
    simp only [decide_eq_true_eq, not_and]
    intro hbuy hkey
    exact h u hu (htk ▸ hkey) hbuy
  simp only [finalAvgSpec]
  rw [hb]
  simp

/-- C10: when a stock key has sells but no buys anywhere in the collection,
getMonthlyStats costs each of its sells against the sell's own price (the
positions map has no entry, so `positions.get(key) || trade.price` falls
back), so those sells contribute exactly 0 to their month's pnl — the pnl
equals the same sum taken over the other keys' sells only — while still
counting fully in sellAmount and count; calculatePositions instead credits
the key's full revenue as realizedPnL. -/
theorem C10_orphan_sell_zero_pnl (ts : List Trade) (k : String)
    (h : ∀ u ∈ ts, stockKey u = k → ¬ u.type = TType.buy) :
    (∀ t : Trade, stockKey t = k → lookupAvg (monthAvgPositions ts) t = t.price) ∧
      (∀ s ∈ getMonthlyStats ts,
        s.pnl = (((monthSells ts s.month).filter fun t => ¬ stockKey t = k).map
            fun t => (t.price - finalAvgSpec ts t) * t.quantity).sum ∧
          s.sellAmount = amountSum (monthSells ts s.month) ∧
          s.count = (ts.filter fun t => monthOf t = s.month).length) ∧
      (∀ p : StockPosition, mapLookup k (calculatePositions ts) = some p →
        p.realizedPnL = amountSum (ts.filter fun t => stockKey t = k)) := by
  refine ⟨?_, ?_, ?_⟩
  · intro t htk
    rw [lookupAvg_eq_finalAvgSpec]
    exact finalAvgSpec_of_no_buys ts k t htk h
  · intro s hs
    refine ⟨?_, monthly_sellAmount_char ts s hs, monthly_count_char ts s hs⟩
    rw [monthly_pnl_char ts s hs]
    apply sum_map_filter_zero (fun t => (t.price - finalAvgSpec ts t) * t.quantity)
      (fun t => stockKey t = k)
    intro t htm htk
    have htts : t ∈ ts := by
      have h1 := List.mem_of_mem_filter htm
      exact List.mem_of_mem_filter h1
    rw [finalAvgSpec_of_no_buys ts k t htk h]
    ring
  · intro p hp
    exact (realized_of_sell_only ts k p hp h).2.2.1

/-- C10 witness: stock Y has a single sell 3@7 and no buys, next to a buy
2@10 and a sell 1@16 of stock A in the same month; the month's pnl is 6 —
entirely from the stock-A sell — its sellAmount is 37 = 21 + 16 and its
count is 3, while calculatePositions reports realizedPnL = 21 (the full
revenue) for Y. -/
theorem C10_orphan_sell_zero_pnl_witness :
    (MonthlyStat.mk 202401 20 37 6 3) ∈ getMonthlyStats exC10 ∧
      ((MonthlyStat.mk 202401 20 37 6 3).pnl =
          (((monthSells exC10 (MonthlyStat.mk 202401 20 37 6 3).month).filter
              fun t => ¬ stockKey t = "Y").map
            fun t => (t.price - finalAvgSpec exC10 t) * t.quantity).sum ∧
        (MonthlyStat.mk 202401 20 37 6 3).sellAmount =
          amountSum (monthSells exC10 (MonthlyStat.mk 202401 20 37 6 3).month) ∧
        (MonthlyStat.mk 202401 20 37 6 3).count =
          (exC10.filter fun t => monthOf t = (MonthlyStat.mk 202401 20 37 6 3).month).length) ∧
      mapLookup "Y" (calculatePositions exC10) =
        some (StockPosition.mk "Y" "" 0 3 (-3) 0 0 21 21) ∧
      (StockPosition.mk "Y" "" 0 3 (-3) 0 0 21 21).realizedPnL =
        amountSum (exC10.filter fun t => stockKey t = "Y") := by
  have hh : ∀ u ∈ exC10, stockKey u = "Y" → ¬ u.type = TType.buy := by decide
  have hmem : (MonthlyStat.mk 202401 20 37 6 3) ∈ getMonthlyStats exC10 := by
    norm_num [getMonthlyStats, sortByDate, List.insertionSort, List.orderedInsert,
      avgStep, monthStep, entryUpd, lookupAvg, mapLookup, mapUpdate, stockKey,
      monthOf, zeroEntry, toStat, statLe, exC10, dateLe, ttSellNeBuy, strANeY]
  have hpos : mapLookup "Y" (calculatePositions exC10) =
      some (StockPosition.mk "Y" "" 0 3 (-3) 0 0 21 21) := by
    norm_num [calculatePositions, sortByDate, List.insertionSort, List.orderedInsert,
      calcStep, applyTrade, mapLookup, mapUpdate, stockKey, initPos, exC10, dateLe,
      ttSellNeBuy, strANeY]
  have H := C10_orphan_sell_zero_pnl exC10 "Y" hh
  exact ⟨hmem, H.2.1 _ hmem, hpos, H.2.2 _ hpos⟩

/- ----- helper facts for the twelve-month window ----- -/

theorem month_mem_keys (ts : List Trade) (mo : Nat) :
    mo ∈ keysOf ((sortByDate ts).foldl (monthStep (monthAvgPositions ts)) []) ↔
      ∃ t ∈ ts, monthOf t = mo := by
  have h1 : mapLookup mo ((sortByDate ts).foldl (monthStep (monthAvgPositions ts)) []) =
      entryFromList (monthAvgPositions ts)
        ((sortByDate ts).filter fun t => monthOf t = mo) := by
    rw [lookup_foldl_monthStep,
      show mapLookup mo ([] : List (Nat × MonthEntry)) = none from rfl,
      foldl_optEntryStep_none]
  have h2 : mo ∈ keysOf ((sortByDate ts).foldl (monthStep (monthAvgPositions ts)) []) ↔
      ¬ mapLookup mo ((sortByDate ts).foldl (monthStep (monthAvgPositions ts)) []) = none := by
    rw [mapLookup_eq_none_iff]
    exact not_not.symm
  rw [h2, h1]
  rcases hf : (sortByDate ts).filter (fun t => monthOf t = mo) with _ | ⟨b, r⟩
  · simp only [entryFromList]
    rw [List.filter_eq_nil_iff] at hf
    simp only [decide_eq_true_eq] at hf
    constructor
    · intro hcon
      exact absurd trivial hcon
    · rintro ⟨t, ht, hmo⟩
      exact absurd hmo (hf t (by simp [sortByDate, ht]))
  · simp only [entryFromList]
    constructor
    · intro _
      have hbmem : b ∈ (sortByDate ts).filter (fun t => monthOf t = mo) := by
        rw [hf]
        exact List.mem_cons_self b r
      have hb2 := List.mem_filter.mp hbmem
      refine ⟨b, ?_, by simpa using hb2.2⟩
      simpa [sortByDate] using hb2.1
    · intro _
      simp

theorem stats_map_month (ts : List Trade) :
    ((((sortByDate ts).foldl (monthStep (monthAvgPositions ts)) []).map toStat).map
        fun s => s.month) =
      keysOf ((sortByDate ts).foldl (monthStep (monthAvgPositions ts)) []) := by
  rw [List.map_map]
  rfl

theorem monthly_stats_length (ts : List Trade) :
    (getMonthlyStats ts).length = min ((ts.map monthOf).dedup.length) 12 := by
  rw [getMonthlyStats_eq, List.length_drop]
  have hnd : (keysOf ((sortByDate ts).foldl (monthStep (monthAvgPositions ts)) [])).Nodup :=
    foldl_monthStep_nodupKeys _ (sortByDate ts) [] (by simp [keysOf])
  have hperm : (keysOf ((sortByDate ts).foldl (monthStep (monthAvgPositions ts)) [])).Perm
      ((ts.map monthOf).dedup) := by
    rw [List.perm_ext_iff_of_nodup hnd (List.nodup_dedup _)]
    intro mo
    rw [List.mem_dedup, List.mem_map, month_mem_keys ts mo]
  have hlen := hperm.length_eq
  have hL : (List.insertionSort statLe
      (((sortByDate ts).foldl (monthStep (monthAvgPositions ts)) []).map toStat)).length =
      (keysOf ((sortByDate ts).foldl (monthStep (monthAvgPositions ts)) [])).length := by
    rw [List.length_insertionSort, List.length_map, keysOf, List.length_map]
  omega

theorem monthly_stats_sorted (ts : List Trade) :
    List.Sorted statLe (getMonthlyStats ts) := by
  rw [getMonthlyStats_eq]
  exact (List.sorted_insertionSort statLe _).sublist (List.drop_sublist _ _)

/-- C5: getMonthlyStats returns min(distinct months, 12) buckets, sorted
ascending by month; every returned month occurs in the data; every data
month that is not returned is strictly older than every returned month (so
with more than 12 distinct months, exactly the 12 most recent are kept);
and the pnl of the kept months is computed from the average-price state of
the FULL history, so trades of the dropped months still contribute to it. -/
theorem C5_last_twelve_months (ts : List Trade) :
    (getMonthlyStats ts).length = min ((ts.map monthOf).dedup.length) 12 ∧
      List.Sorted statLe (getMonthlyStats ts) ∧
      (∀ s ∈ getMonthlyStats ts, ∃ t ∈ ts, monthOf t = s.month) ∧
      (∀ t ∈ ts, (∀ s2 ∈ getMonthlyStats ts, ¬ s2.month = monthOf t) →
        ∀ s ∈ getMonthlyStats ts, monthOf t < s.month) ∧
      (∀ s ∈ getMonthlyStats ts, s.pnl = ((monthSells ts s.month).map
        fun u => (u.price - finalAvgSpec ts u) * u.quantity).sum) := by
  have hnd : (keysOf ((sortByDate ts).foldl (monthStep (monthAvgPositions ts)) [])).Nodup :=
    foldl_monthStep_nodupKeys _ (sortByDate ts) [] (by simp [keysOf])
  refine ⟨monthly_stats_length ts, monthly_stats_sorted ts, ?_, ?_,
    fun s hs => monthly_pnl_char ts s hs⟩
  · intro s hs
    obtain ⟨hne, _, _, _, _⟩ := mem_getMonthlyStats_char ts s hs
    obtain ⟨b, hb⟩ := List.exists_mem_of_ne_nil _ hne
    have hb2 := List.mem_filter.mp hb
    refine ⟨b, ?_, by simpa using hb2.2⟩
    simpa [sortByDate] using hb2.1
  · intro t ht hnone s hs
    have hkey : monthOf t ∈
        keysOf ((sortByDate ts).foldl (monthStep (monthAvgPositions ts)) []) :=
      (month_mem_keys ts (monthOf t)).mpr ⟨t, ht, rfl⟩
    rw [keysOf] at hkey
    obtain ⟨p, hpmem, hpfst⟩ := List.mem_map.mp hkey
    have hstat : toStat p ∈
        (((sortByDate ts).foldl (monthStep (monthAvgPositions ts)) []).map toStat) :=
      List.mem_map_of_mem toStat hpmem
    rw [getMonthlyStats_eq] at hs hnone
    set L := List.insertionSort statLe
      (((sortByDate ts).foldl (monthStep (monthAvgPositions ts)) []).map toStat) with hL
    set n := L.length - 12 with hn
    have hstatL : toStat p ∈ L := (List.perm_insertionSort statLe _).mem_iff.mpr hstat
    have hnotin : toStat p ∉ L.drop n := by
      intro hcon
      exact hnone (toStat p) hcon hpfst
    have hsplit : L.take n ++ L.drop n = L := List.take_append_drop n L
    have htake : toStat p ∈ L.take n := by
      rw [← hsplit] at hstatL
      rcases List.mem_append.mp hstatL with h1 | h1
      · exact h1
      · exact absurd h1 hnotin
    have hp2 : List.Pairwise (fun a b : MonthlyStat => statLe a b ∧ ¬ a.month = b.month) L := by
      have hsorted : List.Pairwise statLe L := List.sorted_insertionSort statLe _
      have hperm2 := (List.perm_insertionSort statLe
        (((sortByDate ts).foldl (monthStep (monthAvgPositions ts)) []).map toStat)).map
        (fun s2 : MonthlyStat => s2.month)
      rw [stats_map_month] at hperm2
      have hmnd : (L.map fun s2 => s2.month).Nodup := hperm2.nodup_iff.mpr hnd
      exact hsorted.and (List.pairwise_map.mp hmnd)
    rw [← hsplit] at hp2
    have h3 := (List.pairwise_append.mp hp2).2.2 (toStat p) htake s hs
    have h4 : p.1 < s.month := Nat.lt_of_le_of_ne h3.1 h3.2
    rw [← hpfst]
    exact h4

/-- C5 witness: with one trade in each of 15 consecutive months, exactly 12
buckets are returned, ascending, and the three oldest months are dropped —
every returned month is newer than 2023-01. -/
theorem C5_last_twelve_months_witness :
    (getMonthlyStats exC5).length = 12 ∧
      List.Sorted statLe (getMonthlyStats exC5) ∧
      (∀ s ∈ getMonthlyStats exC5, 202301 < s.month) := by
  have H := C5_last_twelve_months exC5
  have hlen : (getMonthlyStats exC5).length = 12 := by
    rw [H.1]
    decide
  have hstats : (getMonthlyStats exC5).map (fun s => s.month) =
      [202304, 202305, 202306, 202307, 202308, 202309, 202310, 202311, 202312,
        202401, 202402, 202403] := by
    norm_num [getMonthlyStats, sortByDate, List.insertionSort, List.orderedInsert,
      avgStep, monthStep, entryUpd, lookupAvg, mapLookup, mapUpdate, stockKey,
      monthOf, zeroEntry, toStat, statLe, exC5, dateLe]
  have ht0 : ({ date := 20230115, stockName := "A", stockCode := "",
                type := TType.buy, quantity := 1, price := 1 } : Trade) ∈ exC5 := by
    decide
  have hno : ∀ s2 ∈ getMonthlyStats exC5,
      ¬ s2.month = monthOf { date := 20230115, stockName := "A", stockCode := "",
                             type := TType.buy, quantity := 1, price := 1 } := by
    intro s2 hs2 hcon
    have hm : s2.month ∈ (getMonthlyStats exC5).map (fun s => s.month) :=
      List.mem_map_of_mem _ hs2
    rw [hstats] at hm
    rw [show monthOf { date := 20230115, stockName := "A", stockCode := "",
                       type := TType.buy, quantity := 1, price := 1 } = 202301 from
      rfl] at hcon
    rw [hcon] at hm
    exact absurd hm (by decide)
  have hdrop := H.2.2.2.1 _ ht0 hno
  exact ⟨hlen, H.2.1, fun s hs => hdrop s hs⟩

/- ----- day-summary and roundtrip-return claims ----- -/

theorem dayStep_returns :
    ∀ (ts : List Trade) (a b c : ℚ) (rs : List ℚ),
      (ts.foldl dayStep (a, b, c, rs)).2.2.2 =
        rs ++ ((ts.filter fun t => 0 < (getTradeComputed t).buyAmount).map
          fun t => (getTradeComputed t).returnPct)
  | [], _, _, _, _ => by simp
  | t :: ts, a, b, c, rs => by
    by_cases h : 0 < (getTradeComputed t).buyAmount
    · rw [List.foldl_cons,
        show dayStep (a, b, c, rs) t =
          (a + (getTradeComputed t).buyAmount, b + (getTradeComputed t).sellAmount,
            c + (getTradeComputed t).pnl, rs ++ [(getTradeComputed t).returnPct]) from
          by simp [dayStep, h],
        dayStep_returns ts _ _ _ (rs ++ [(getTradeComputed t).returnPct]),
        List.filter_cons_of_pos (by simpa using h), List.map_cons,
        List.append_assoc, List.singleton_append]
    · rw [List.foldl_cons,
        show dayStep (a, b, c, rs) t =
          (a + (getTradeComputed t).buyAmount, b + (getTradeComputed t).sellAmount,
            c + (getTradeComputed t).pnl, rs) from by simp [dayStep, h],
        dayStep_returns ts _ _ _ rs,
        List.filter_cons_of_neg (by simpa using h)]

theorem avgReturnPct_rets (ts : List Trade) (h : ∀ t ∈ ts, t.type = TType.roundtrip) :
    (ts.filterMap fun t =>
        if 0 < t.buyPrice.getD 0 * t.quantity then
          some (t.realizedPnl.getD 0 / (t.buyPrice.getD 0 * t.quantity) * 100)
        else none) =
      (eligibleFor ts).map fun t => (getTradeComputed t).returnPct := by
  induction ts with
  | nil => rfl
  | cons t ts ih =>
    have htr : t.type = TType.roundtrip := h t (List.mem_cons_self t ts)
    have hrest := ih (fun u hu => h u (List.mem_cons_of_mem t hu))
    have hba : (getTradeComputed t).buyAmount = t.buyPrice.getD 0 * t.quantity := by
      simp [getTradeComputed, htr]
    by_cases hpos : 0 < t.buyPrice.getD 0 * t.quantity
    · have hstep : (List.filterMap (fun u =>
          if 0 < u.buyPrice.getD 0 * u.quantity then
            some (u.realizedPnl.getD 0 / (u.buyPrice.getD 0 * u.quantity) * 100)
          else none) (t :: ts)) =
          t.realizedPnl.getD 0 / (t.buyPrice.getD 0 * t.quantity) * 100 ::
            List.filterMap (fun u =>
              if 0 < u.buyPrice.getD 0 * u.quantity then
                some (u.realizedPnl.getD 0 / (u.buyPrice.getD 0 * u.quantity) * 100)
              else none) ts := by
        simp [List.filterMap_cons, hpos]
      rw [hstep]
      rw [show eligibleFor (t :: ts) = t :: eligibleFor ts from by
        simp only [eligibleFor]
        exact List.filter_cons_of_pos (by simp [hba, hpos])]
      rw [List.map_cons, hrest]
      congr 1
      simp [getTradeComputed, htr, hpos]
    · have hstep : (List.filterMap (fun u =>
          if 0 < u.buyPrice.getD 0 * u.quantity then
            some (u.realizedPnl.getD 0 / (u.buyPrice.getD 0 * u.quantity) * 100)
          else none) (t :: ts)) =
          List.filterMap (fun u =>
            if 0 < u.buyPrice.getD 0 * u.quantity then
              some (u.realizedPnl.getD 0 / (u.buyPrice.getD 0 * u.quantity) * 100)
            else none) ts := by
        simp [List.filterMap_cons, hpos]
      rw [hstep]
      rw [show eligibleFor (t :: ts) = eligibleFor ts from by
        simp only [eligibleFor]
        exact List.filter_cons_of_neg (by simp [hba, hpos])]
      exact hrest

/-- C7: the day summary's aggregate return is the arithmetic mean of
returnPct over exactly the records with strictly positive buyAmount —
records with buyAmount = 0 are excluded from the mean, not counted as 0% —
and an empty eligible set yields 0; on all-roundtrip record sets the
Dashboard's avgReturnPct computes the same mean. -/
theorem C7_day_return_mean (ts : List Trade) :
    (getDaySummary ts).avgReturn = meanReturnSpec ts ∧
      ((∀ t ∈ ts, t.type = TType.roundtrip) → avgReturnPct ts = meanReturnSpec ts) := by
  constructor
  · have hr := dayStep_returns ts 0 0 0 []
    simp only [getDaySummary, meanReturnSpec, eligibleFor] at hr ⊢
    rw [hr, List.nil_append]
    by_cases hl : (ts.filter fun t => 0 < (getTradeComputed t).buyAmount) = []
    · simp [hl]
    · rw [if_neg (by simpa [List.map_eq_nil_iff] using hl), if_neg hl, List.length_map]
  · intro hrt
    have hfm := avgReturnPct_rets ts hrt
    simp only [avgReturnPct, meanReturnSpec, eligibleFor] at hfm ⊢
    rw [hfm]
    by_cases hl : (ts.filter fun t => 0 < (getTradeComputed t).buyAmount) = []
    · simp [hl]
    · rw [if_neg (by simpa [List.map_eq_nil_iff] using hl), if_neg hl, List.length_map]

/-- C7 witness: three roundtrip records — returns 10 percent, excluded
(zero buy price), and -15 percent — give mean -5/2 in both computations. -/
theorem C7_day_return_mean_witness :
    (∀ t ∈ exC7, t.type = TType.roundtrip) ∧
      (getDaySummary exC7).avgReturn = meanReturnSpec exC7 ∧
      avgReturnPct exC7 = meanReturnSpec exC7 ∧
      meanReturnSpec exC7 = -5 / 2 := by
  have hrt : ∀ t ∈ exC7, t.type = TType.roundtrip := by decide
  have H := C7_day_return_mean exC7
  refine ⟨hrt, H.1, H.2 hrt, ?_⟩
  norm_num [meanReturnSpec, eligibleFor, getTradeComputed, exC7, List.cons_ne_nil]

/-- C8: the per-record return of a roundtrip record divides realizedPnl by
buyAmount = buyPrice * quantity and multiplies by 100 only when that amount
is strictly positive; otherwise the guard reports exactly 0, so a
zero-investment record never yields an undefined value. -/
theorem C8_return_guard (t : Trade) (h : t.type = TType.roundtrip) :
    (0 < t.buyPrice.getD 0 * t.quantity →
        (getTradeComputed t).returnPct =
          t.realizedPnl.getD 0 / (t.buyPrice.getD 0 * t.quantity) * 100) ∧
      (¬ 0 < t.buyPrice.getD 0 * t.quantity → (getTradeComputed t).returnPct = 0) := by
  constructor <;> intro hp <;> simp [getTradeComputed, h, hp]

/-- C8 witness: quantity 10, buyPrice 0, sellPrice 100, realizedPnl 1000
reports returnPct = 0. -/
theorem C8_return_guard_witness :
    ¬ 0 < exC8.buyPrice.getD 0 * exC8.quantity ∧
      (getTradeComputed exC8).returnPct = 0 := by
  have hneg : ¬ 0 < exC8.buyPrice.getD 0 * exC8.quantity := by norm_num [exC8]
  exact ⟨hneg, (C8_return_guard exC8 rfl).2 hneg⟩

/- ----- roundtrip records are processed by the sell branches ----- -/

theorem applyTrade_retype (pos : StockPosition) (t : Trade)
    (h : ¬ t.type = TType.buy) :
    applyTrade pos t = applyTrade pos { t with type := TType.sell } := by
  simp [applyTrade, h, ttSellNeBuy]

theorem entryUpd_retype (pm : List (String × ℚ)) (e : MonthEntry) (t : Trade)
    (h : ¬ t.type = TType.buy) :
    entryUpd pm e t = entryUpd pm e { t with type := TType.sell } := by
  simp [entryUpd, h, ttSellNeBuy, lookupAvg, stockKey]

theorem calcStep_rts (m : List (String × StockPosition)) (t : Trade) :
    calcStep m (roundtripAsSell t) = calcStep m t := by
  by_cases h : t.type = TType.roundtrip
  · have hrw : roundtripAsSell t = { t with type := TType.sell } := by
      simp [roundtripAsSell, h]
    have hnb : ¬ t.type = TType.buy := by
      rw [h]
      exact ttRoundtripNeBuy
    have h1 : stockKey { t with type := TType.sell } = stockKey t := by simp [stockKey]
    have h2 : initPos ({ t with type := TType.sell } : Trade) = initPos t := by
      simp [initPos]
    rw [hrw]
    simp only [calcStep, h1, h2, ← applyTrade_retype _ t hnb]
  · rw [show roundtripAsSell t = t from by simp [roundtripAsSell, h]]

theorem avgStep_rts (s : List (String × AvgAcc) × List (String × ℚ)) (t : Trade) :
    avgStep s (roundtripAsSell t) = avgStep s t := by
  by_cases h : t.type = TType.roundtrip
  · have hrw : roundtripAsSell t = { t with type := TType.sell } := by
      simp [roundtripAsSell, h]
    have hb2 : ¬ t.type = TType.buy := by
      rw [h]
      exact ttRoundtripNeBuy
    rw [hrw]
    simp [avgStep, hb2, ttSellNeBuy]
  · rw [show roundtripAsSell t = t from by simp [roundtripAsSell, h]]

theorem monthStep_rts (pm : List (String × ℚ)) (m : List (Nat × MonthEntry))
    (t : Trade) :
    monthStep pm m (roundtripAsSell t) = monthStep pm m t := by
  by_cases h : t.type = TType.roundtrip
  · have hrw : roundtripAsSell t = { t with type := TType.sell } := by
      simp [roundtripAsSell, h]
    have hnb : ¬ t.type = TType.buy := by
      rw [h]
      exact ttRoundtripNeBuy
    have h1 : monthOf ({ t with type := TType.sell } : Trade) = monthOf t := by
      simp [monthOf]
    rw [hrw]
    simp only [monthStep, h1, ← entryUpd_retype pm _ t hnb]
  · rw [show roundtripAsSell t = t from by simp [roundtripAsSell, h]]

theorem orderedInsert_map_rts (t : Trade) :
    ∀ l : List Trade,
      List.orderedInsert dateLe (roundtripAsSell t) (l.map roundtripAsSell) =
        (List.orderedInsert dateLe t l).map roundtripAsSell
  | [] => rfl
  | b :: l => by
    have hdt : (roundtripAsSell t).date = t.date := by
      by_cases h : t.type = TType.roundtrip <;> simp [roundtripAsSell, h]
    have hdb : (roundtripAsSell b).date = b.date := by
      by_cases h : b.type = TType.roundtrip <;> simp [roundtripAsSell, h]
    by_cases h : dateLe t b
    · have h2 : dateLe (roundtripAsSell t) (roundtripAsSell b) := by
        simp only [dateLe, hdt, hdb]
        exact h
      simp [List.orderedInsert, h, h2]
    · have h2 : ¬ dateLe (roundtripAsSell t) (roundtripAsSell b) := by
        simp only [dateLe, hdt, hdb]
        exact h
      simp [List.orderedInsert, h, h2, orderedInsert_map_rts t l]

theorem sortByDate_map_rts :
    ∀ ts : List Trade,
      sortByDate (ts.map roundtripAsSell) = (sortByDate ts).map roundtripAsSell
  | [] => rfl
  | t :: ts => by
    simp only [List.map_cons, sortByDate, List.insertionSort]
    rw [show List.insertionSort dateLe (ts.map roundtripAsSell) =
      (List.insertionSort dateLe ts).map roundtripAsSell from sortByDate_map_rts ts]
    exact orderedInsert_map_rts t (List.insertionSort dateLe ts)

theorem calculatePositions_rts (ts : List Trade) :
    calculatePositions (ts.map roundtripAsSell) = calculatePositions ts := by
  unfold calculatePositions
  rw [sortByDate_map_rts, List.foldl_map]
  simp only [calcStep_rts]

theorem monthAvgPositions_rts (ts : List Trade) :
    monthAvgPositions (ts.map roundtripAsSell) = monthAvgPositions ts := by
  unfold monthAvgPositions
  rw [sortByDate_map_rts, List.foldl_map]
  simp only [avgStep_rts]

theorem getMonthlyStats_rts (ts : List Trade) :
    getMonthlyStats (ts.map roundtripAsSell) = getMonthlyStats ts := by
  rw [getMonthlyStats_eq, getMonthlyStats_eq, monthAvgPositions_rts,
    sortByDate_map_rts, List.foldl_map]
  simp only [monthStep_rts]

/-- C9: every record whose side is not buy — in particular a roundtrip
record — is handled by the sell branch of both aggregators, with the
record's `price` field read as the sell price: retyping it to sell changes
nothing at the step level, its amount price * quantity is credited to
totalSellRevenue / sellAmount, and retyping every roundtrip record to sell
leaves both calculatePositions and getMonthlyStats unchanged on any input
(the Dashboard passes its full, unseparated trade list to both calls). -/
theorem C9_non_buy_takes_sell_branch :
    (∀ (pos : StockPosition) (t : Trade), ¬ t.type = TType.buy →
        applyTrade pos t = applyTrade pos { t with type := TType.sell } ∧
          (applyTrade pos t).totalSellRevenue =
            pos.totalSellRevenue + t.price * t.quantity ∧
          (applyTrade pos t).realizedPnL =
            pos.realizedPnL + (t.price * t.quantity - pos.avgBuyPrice * t.quantity)) ∧
      (∀ (pm : List (String × ℚ)) (e : MonthEntry) (t : Trade), ¬ t.type = TType.buy →
        entryUpd pm e t = entryUpd pm e { t with type := TType.sell } ∧
          (entryUpd pm e t).sellAmount = e.sellAmount + t.price * t.quantity ∧
          (entryUpd pm e t).pnl = e.pnl + (t.price - lookupAvg pm t) * t.quantity) ∧
      (∀ ts : List Trade,
        calculatePositions (ts.map roundtripAsSell) = calculatePositions ts ∧
          getMonthlyStats (ts.map roundtripAsSell) = getMonthlyStats ts) := by
  refine ⟨?_, ?_, fun ts => ⟨calculatePositions_rts ts, getMonthlyStats_rts ts⟩⟩
  · intro pos t h
    refine ⟨applyTrade_retype pos t h, ?_, ?_⟩
    · exact (applyTrade_sell_fields pos t h).2.2.2.2.1
    · exact (applyTrade_sell_fields pos t h).2.2.2.2.2
  · intro pm e t h
    exact ⟨entryUpd_retype pm e t h, by simp [entryUpd, h], by simp [entryUpd, h]⟩

/-- C9 witness: the concrete roundtrip record is not a buy, is processed
exactly like its sell-retyped copy, and retyping the mixed buy + roundtrip
input changes neither aggregator's output. -/
theorem C9_non_buy_takes_sell_branch_witness :
    ¬ exC9rt.type = TType.buy ∧
      applyTrade (initPos exC9rt) exC9rt =
        applyTrade (initPos exC9rt) { exC9rt with type := TType.sell } ∧
      calculatePositions (exC9.map roundtripAsSell) = calculatePositions exC9 ∧
      getMonthlyStats (exC9.map roundtripAsSell) = getMonthlyStats exC9 := by
  have H := C9_non_buy_takes_sell_branch
  have hnb : ¬ exC9rt.type = TType.buy := by decide
  exact ⟨hnb, (H.1 (initPos exC9rt) exC9rt hnb).1, (H.2.2 exC9).1, (H.2.2 exC9).2⟩
